import Mathlib

/-!
Verification of the llama-pile capture-and-analysis pipeline.

The Python sources `clipboard.py` and `experimental/novelty_tracker.py` are
shallowly embedded below.  Strings are modelled as `List Char` (written `Str`),
Python `dict`/`Counter` as association lists, and `float` arithmetic as exact
rationals `ℚ`.  A Python exception (e.g. the `ValueError` raised when tuple
unpacking fails) is modelled by `Option`/a `Bool` failure flag.
-/

set_option maxRecDepth 4000

/-- Characters modelling a Python `str`. -/
abbrev Str := List Char

/-- Whitespace characters removed by Python `str.strip()`:
space, tab, newline, carriage return, vertical tab, form feed. -/
def pyIsSpace (c : Char) : Bool :=
  c == ' ' || c == '\t' || c == '\n' || c == '\r' || c == '\x0b' || c == '\x0c'

/-- Python `s.strip()`: remove leading and trailing whitespace. -/
def pyStrip (s : Str) : Str :=
  ((s.dropWhile pyIsSpace).reverse.dropWhile pyIsSpace).reverse

/-- Python `s.split(sep)` for a one-character separator: split on every
occurrence, keeping empty segments (`"a::b".split(":") == ["a","","b"]`). -/
def pySplit (sep : Char) : Str → List Str
  | [] => [[]]
  | c :: rest =>
    let r := pySplit sep rest
    if c == sep then [] :: r
    else
      match r with
      | [] => [[c]]
      | h :: t => (c :: h) :: t

/-- Python `sep.join(xs)` for a one-character separator. -/
def pyJoin (sep : Char) : List Str → Str
  | [] => []
  | [s] => s
  | s :: rest => s ++ sep :: pyJoin sep rest

/-- `subAt needle hay`: does `hay` start with `needle`? (Python-style prefix test
used to implement the substring test below.) -/
def subAt : Str → Str → Bool
  | [], _ => true
  | _ :: _, [] => false
  | a :: as, b :: bs => a == b && subAt as bs

/-- Python `needle in hay` for strings: substring occurrence test. -/
def strHasSub (needle : Str) : Str → Bool
  | [] => needle.isEmpty
  | b :: bs => subAt needle (b :: bs) || strHasSub needle bs

/-! ## `experimental/novelty_tracker.py` -/

namespace NT

/-- One value of the `response_dict` passed to `add_response` that is a dict
with a `'response'` key; `query_ai` always builds these. -/
structure AgentEntry where
  response : Str
deriving DecidableEq, Repr

/-- The values of a `response_dict` (`response_dict.values()`); a `none` models
a value that is not a dict with a `'response'` key and is skipped. -/
abbrev ResponseDict := List (Option AgentEntry)

/-- A `collections.Counter` of strings: association list of (key, count). -/
abbrev CounterT := List (Str × Nat)

/-- `Counter.__getitem__`: the count of `k`, `0` when absent.  A missing-key
read on a `Counter` returns `0` and does not insert the key. -/
def counterGet (c : CounterT) (k : Str) : Nat :=
  match c.find? (fun p => p.1 == k) with
  | some p => p.2
  | none => 0

/-- `Counter[k] += 1`: bump the count of `k`, inserting it at count 1 when
absent. -/
def counterIncr (c : CounterT) (k : Str) : CounterT :=
  if c.any (fun p => p.1 == k) then
    c.map (fun p => if p.1 == k then (p.1, p.2 + 1) else p)
  else
    c ++ [(k, 1)]

/-- The state of a `NoveltyTracker` instance. -/
structure NoveltyTracker where
  response_history : List ResponseDict
  history_size : Nat
  key_frequency : CounterT
  value_frequency : CounterT

/-- `pairs = [line.strip().split(':') for line in text.split('\n') if ':' in line]` -/
def rawPairs (text : Str) : List (List Str) :=
  ((pySplit '\n' text).filter (fun l => l.contains ':')).map
    (fun l => pySplit ':' (pyStrip l))

/-- Tuple unpacking `for k, v in pairs`: succeeds only when every element has
exactly two components; otherwise Python raises `ValueError`, modelled by
`none`. -/
def unpackPairs : List (List Str) → Option (List (Str × Str))
  | [] => some []
  | [k, v] :: rest => (unpackPairs rest).map (fun ps => (k, v) :: ps)
  | _ => none

/-- A read of `self.key_frequency[k]` / `self.value_frequency[v]`, threaded
through the tracker state: a `Counter` read returns the count (0 when the key
is missing) and leaves the counter unchanged. -/
def counterRead (c : CounterT) (k : Str) : Nat × CounterT :=
  (counterGet c k, c)

/-- `np.mean` of a list of rationals (the lists it is applied to are
non-empty). -/
def listMean (l : List ℚ) : ℚ := l.sum / l.length

/-- The scoring loop of `get_novelty_score`: for each `(k, v)` pair read the
two frequencies (threading the counters through each read) and record the
novelty contributions `1/(freq+1)`. -/
def scoreFold (kf vf : CounterT) : List (Str × Str) →
    (List ℚ × List ℚ × CounterT × CounterT)
  | [] => ([], [], kf, vf)
  | (k, v) :: rest =>
    let kr := counterRead kf (pyStrip k)
    let vr := counterRead vf (pyStrip v)
    let r := scoreFold kr.2 vr.2 rest
    ((1 / (kr.1 + 1 : ℚ)) :: r.1, (1 / (vr.1 + 1 : ℚ)) :: r.2.1, r.2.2)

/-- `NoveltyTracker.get_novelty_score`.  Returns the score (or `none` for the
`ValueError` raised when a line holds more than one `':'`) together with the
tracker state after the call. -/
def get_novelty_score (t : NoveltyTracker) (text : Str) :
    Option ℚ × NoveltyTracker :=
  let pairs := rawPairs text
  if pairs = [] then (some 0, t)
  else
    match unpackPairs pairs with
    | none => (none, t)
    | some ps =>
      match scoreFold t.key_frequency t.value_frequency ps with
      | (ks, vs, kf2, vf2) =>
        (some ((listMean ks + listMean vs) / 2),
         { t with key_frequency := kf2, value_frequency := vf2 })

/-- The update loop of `add_response` over the parsed pairs of one agent
response: increment both counters per pair; a pair that does not unpack into
exactly `k, v` raises `ValueError` at that point (flag `false`), leaving the
increments already performed in place. -/
def applyPairs (kf vf : CounterT) : List (List Str) → CounterT × CounterT × Bool
  | [] => (kf, vf, true)
  | [k, v] :: rest => applyPairs (counterIncr kf (pyStrip k)) (counterIncr vf (pyStrip v)) rest
  | _ => (kf, vf, false)

/-- The outer loop of `add_response` over `response_dict.values()`: non-dict
values are skipped; an exception from one entry stops the whole loop. -/
def applyEntries (kf vf : CounterT) : ResponseDict → CounterT × CounterT × Bool
  | [] => (kf, vf, true)
  | none :: rest => applyEntries kf vf rest
  | some e :: rest =>
    match applyPairs kf vf (rawPairs e.response) with
    | (kf2, vf2, true) => applyEntries kf2 vf2 rest
    | (kf2, vf2, false) => (kf2, vf2, false)

/-- `deque(maxlen=n).append`: append, evicting the oldest entries beyond the
capacity. -/
def dequeAppend (h : List ResponseDict) (cap : Nat) (x : ResponseDict) :
    List ResponseDict :=
  let h2 := h ++ [x]
  if cap < h2.length then h2.drop (h2.length - cap) else h2

/-- `NoveltyTracker.add_response`.  Returns the tracker after the call and a
flag: `false` models the `ValueError` escaping the method (in which case the
increments made before the bad line remain — the mutation is in place — and
the history is not appended). -/
def add_response (t : NoveltyTracker) (rd : ResponseDict) :
    NoveltyTracker × Bool :=
  match applyEntries t.key_frequency t.value_frequency rd with
  | (kf, vf, true) =>
    let t2 := { t with
      key_frequency := kf
      value_frequency := vf
      response_history := dequeAppend t.response_history t.history_size rd }
    (t2, true)
  | (kf, vf, false) =>
    ({ t with key_frequency := kf, value_frequency := vf }, false)

/-- `PERFORMANCE_CONFIG["novelty_weight"]` as set in `novelty_tracker.py`. -/
def novelty_weight : ℚ := 3 / 10

/-- `PERFORMANCE_CONFIG["history_size"]` as set in `novelty_tracker.py`. -/
def history_size : Nat := 1000

/-- A fresh `NoveltyTracker(history_size=1000)`. -/
def tracker0 : NoveltyTracker :=
  { response_history := [], history_size := history_size,
    key_frequency := [], value_frequency := [] }

/-- The fallback string `"Error generating response"` returned by
`query_ollama` when no candidate was generated. -/
def errFallback : Str := "Error generating response".data

/-- The candidate-generation loop `for _ in range(3): ... responses.append(...)`.
`gen i` is the outcome of the `i`-th call to `client.generate`; the flag is
`false` when a call raised, in which case `responses` holds the candidates
collected before the failure. -/
def collect3 (gen : Nat → Except Unit Str) : List Str × Bool :=
  match gen 0 with
  | .error _ => ([], false)
  | .ok r0 =>
    match gen 1 with
    | .error _ => ([r0], false)
    | .ok r1 =>
      match gen 2 with
      | .error _ => ([r0, r1], false)
      | .ok r2 => ([r0, r1, r2], true)

/-- `[novelty_tracker.get_novelty_score(r) for r in responses]`, threading the
tracker state through each call; an exception from one call (`none`) aborts
the comprehension. -/
def scoreCandidates (t : NoveltyTracker) : List Str →
    Option (List ℚ) × NoveltyTracker
  | [] => (some [], t)
  | r :: rest =>
    match get_novelty_score t r with
    | (none, t2) => (none, t2)
    | (some q, t2) =>
      match scoreCandidates t2 rest with
      | (none, t3) => (none, t3)
      | (some qs, t3) => (some (q :: qs), t3)

/-- The largest element of a list of rationals (`0` for the empty list, which
`np.argmax` is never given here). -/
def listMax : List ℚ → ℚ
  | [] => 0
  | x :: xs => xs.foldl max x

/-- `np.argmax`: the index of the first occurrence of the maximum. -/
def argmaxQ (l : List ℚ) : Nat :=
  l.findIdx (fun x => x == listMax l)

/-- `query_ollama` from `novelty_tracker.py`: generate three candidates, score
each for novelty, combine with the constant base confidence `1.0` as
`(1-w)*b + w*n`, and return the candidate at `np.argmax(final_scores)`.  Any
exception is caught and the function returns `responses[0]` when at least one
candidate was collected, and `"Error generating response"` otherwise. -/
def query_ollama (t : NoveltyTracker) (w : ℚ) (gen : Nat → Except Unit Str) :
    Str × NoveltyTracker :=
  match collect3 gen with
  | (rs, false) => (rs.headD errFallback, t)
  | (rs, true) =>
    match scoreCandidates t rs with
    | (none, t2) => (rs.headD errFallback, t2)
    | (some ns, t2) =>
      let base := rs.map (fun _ => (1 : ℚ))
      let finals := List.zipWith (fun b n => (1 - w) * b + w * n) base ns
      (rs.getD (argmaxQ finals) [], t2)

end NT

/-! ## `clipboard.py` -/

namespace CB

/-- `truncate_content`: hard cut at `max_chars` with a visible marker. -/
def truncate_content (text : Str) (max_chars : Nat) : Str :=
  if text.length ≤ max_chars then text
  else text.take max_chars ++ "... [truncated]".data

/-- `list(AGENT_CONFIG.keys())`, in insertion order. -/
def agentIds : List Str := ["curator".data, "analyst".data, "synthesizer".data]

/-- `[line.strip() for line in thought.split('\n') if ':' in line]`. -/
def kvLines (thought : Str) : List Str :=
  ((pySplit '\n' thought).filter (fun l => l.contains ':')).map pyStrip

/-- The loop `for i, thought in enumerate(thoughts)` of
`format_previous_thoughts`: render each thought as
`f"{agent_name}:\n" + "\n".join(kv_pairs)` with `agent_name` the `i`-th
`AGENT_CONFIG` key. -/
def fmtEntries (i : Nat) : List Str → List Str
  | [] => []
  | th :: rest =>
    (agentIds.getD i [] ++ ":\n".data ++ pyJoin '\n' (kvLines th)) ::
      fmtEntries (i + 1) rest

/-- `format_previous_thoughts`. -/
def format_previous_thoughts (thoughts : List Str) : Str :=
  if thoughts = [] then "no_previous: true".data
  else pyJoin '\n' (fmtEntries 0 thoughts)

/-- The curator `prompt_template` up to its `{prev_thoughts}` placeholder. -/
def curatorPre : Str :=
  ("Extract key technical elements as concise key-value pairs. Rules:\n            - Each key and value should be 1-3 words maximum\n            - Focus on technical facts only\n            - Format as \x27key: value\x27\n            \n            Example format:\n            lang: python\n            main_lib: pyperclip\n            data_store: jsonl\n            \n            Previous pairs: ").data

/-- The curator `prompt_template` after its `{prev_thoughts}` placeholder. -/
def curatorPost : Str :=
  ("\n            \n            List the key-value pairs for this content:").data

/-- The analyst `prompt_template` up to its `{prev_thoughts}` placeholder. -/
def analystPre : Str :=
  ("Map system patterns to concise key-value pairs. Rules:\n            - Each key and value should be 1-3 words maximum\n            - Focus on patterns and implications\n            - Format as \x27key: value\x27\n            \n            Example format:\n            purpose: data collection\n            arch_type: event driven\n            risk_level: medium\n            \n            Previous pairs: ").data

/-- The analyst `prompt_template` after its `{prev_thoughts}` placeholder. -/
def analystPost : Str :=
  ("\n            \n            List the key-value pairs for this analysis:").data

/-- The synthesizer `prompt_template` up to its `{prev_thoughts}` placeholder. -/
def synthesizerPre : Str :=
  ("Synthesize previous analyses into final key-value pairs. Rules:\n            - Each key and value should be 1-3 words maximum\n            - Focus on conclusions and actions\n            - Format as \x27key: value\x27\n            \n            Example format:\n            main_strength: modular design\n            key_weakness: error handling\n            next_step: add tests\n            \n            Previous pairs: ").data

/-- The synthesizer `prompt_template` after its `{prev_thoughts}` placeholder. -/
def synthesizerPost : Str :=
  ("\n            \n            List the key-value pairs for your synthesis:").data

/-- `prompt_template.format(prev_thoughts=...)` for the curator: the template
holds a single `{prev_thoughts}` placeholder, so `.format` splices the
argument between the two literal segments. -/
def curatorTemplate (prev : Str) : Str := curatorPre ++ prev ++ curatorPost

/-- `prompt_template.format(prev_thoughts=...)` for the analyst. -/
def analystTemplate (prev : Str) : Str := analystPre ++ prev ++ analystPost

/-- `prompt_template.format(prev_thoughts=...)` for the synthesizer. -/
def synthesizerTemplate (prev : Str) : Str :=
  synthesizerPre ++ prev ++ synthesizerPost

/-- One entry of `AGENT_CONFIG`: its key and its formatted prompt template. -/
structure AgentSpec where
  id : Str
  template : Str → Str

/-- `AGENT_CONFIG.items()` in insertion order. -/
def agents : List AgentSpec :=
  [⟨"curator".data, curatorTemplate⟩,
   ⟨"analyst".data, analystTemplate⟩,
   ⟨"synthesizer".data, synthesizerTemplate⟩]

/-- The agent loop of `query_ai` for a text item: per agent, build the prompt
from the formatted template plus the truncated content, obtain a response
(`gen`, the `query_ollama` collaborator), truncate it to 512 characters and
append it to `agents_thoughts`.  Returns the `(prompt, truncated_response)`
trace in agent order. -/
def query_ai_go (gen : Str → Str) (content : Str) :
    List AgentSpec → List Str → List (Str × Str)
  | [], _ => []
  | a :: rest, thoughts =>
    let truncated_content := truncate_content content 512
    let prev := format_previous_thoughts thoughts
    let prompt := a.template prev ++ "\n\nContent to analyze:\n".data ++ truncated_content
    let resp := truncate_content (gen prompt) 512
    (prompt, resp) :: query_ai_go gen content rest (thoughts ++ [resp])

/-- The `query_ai` traversal over the three configured agents. -/
def query_ai_steps (gen : Str → Str) (content : Str) : List (Str × Str) :=
  query_ai_go gen content agents []

/-- `PERFORMANCE_CONFIG["min_content_length"]`. -/
def min_content_length : Nat := 10

/-- `PERFORMANCE_CONFIG["max_queue_size"]`. -/
def max_queue_size : Nat := 100

/-- A content item as returned by `process_clipboard_content`:
`{"type": "text"|"image", "content": ..., "hash": ...}`. -/
inductive CapturedItem where
  | text (content : Str) (hash : Nat)
  | image (path : Str) (hash : Nat)
deriving DecidableEq, Repr

/-- `str(content)` for the argument of `get_content_hash`:
`text_content if text_content else latest_screenshot` — the text when
non-empty, else the screenshot path, else `str(None)`. -/
def strOfSource (text : Str) (shot : Option Str) : Str :=
  if text ≠ [] then text
  else
    match shot with
    | some p => p
    | none => "None".data

/-- `process_clipboard_content`, abstracted over the `md5` fingerprint
(`hashFn`) and the `save_image` path transformation (`saveFn`).  Takes the
`last_content_hash` global and the externally captured text/screenshot, and
returns the produced item (if any) together with the updated
`last_content_hash`. -/
def process_clipboard_content (hashFn : Str → Nat) (saveFn : Str → Str)
    (minLen : Nat) (last : Option Nat) (text : Str) (shot : Option Str) :
    Option CapturedItem × Option Nat :=
  let current := hashFn (strOfSource text shot)
  if some current = last ∨ (text ≠ [] ∧ text.length < minLen) then (none, last)
  else
    if text ≠ [] then (some (.text text current), some current)
    else
      match shot with
      | some p => (some (.image (saveFn p) current), some current)
      | none => (none, some current)

/-- The bounded `queue.Queue(maxsize=...)`. -/
structure BoundedQueue (α : Type) where
  items : List α
  maxsize : Nat

/-- `Queue.full()`: `qsize() >= maxsize`. -/
def queueFull {α : Type} (q : BoundedQueue α) : Bool :=
  q.maxsize ≤ q.items.length

/-- The enqueue attempt of `content_collector`:
`if content and not content_queue.full(): content_queue.put(content)` —
a `None` result or a full queue leaves the queue unchanged (the item is
dropped, the producer does not block). -/
def collectorEnqueue {α : Type} (q : BoundedQueue α) (content : Option α) :
    BoundedQueue α :=
  match content with
  | none => q
  | some it => if queueFull q then q else { q with items := q.items ++ [it] }

end CB

/-! ## General lemmas about the Python string primitives -/

theorem pySplit_ne_nil (sep : Char) (l : Str) : pySplit sep l ≠ [] := by
  cases l with
  | nil => simp [pySplit]
  | cons c rest =>
    by_cases h : (c == sep) = true
    · simp [pySplit, h]
    · rcases hr : pySplit sep rest with _ | ⟨hd, tl⟩ <;>
        simp [pySplit, h, hr]

theorem pySplit_length (sep : Char) (l : Str) :
    (pySplit sep l).length = l.count sep + 1 := by
  induction l with
  | nil => simp [pySplit]
  | cons c rest ih =>
    by_cases h : c = sep
    · simp [pySplit, h, List.count_cons, ih]
    · have hc : (c == sep) = false := by simp [h]
      rcases hr : pySplit sep rest with _ | ⟨hd, tl⟩
      · exact absurd hr (pySplit_ne_nil sep rest)
      · have := hr ▸ ih
        simp only [List.length_cons] at this
        simp only [pySplit, hc, Bool.false_eq_true, if_false, hr,
          List.length_cons, List.count_cons, h, if_false]
        simpa [beq_iff_eq, h] using this

theorem count_dropWhile (p : Char → Bool) (c : Char) (hc : p c = false)
    (l : Str) : (l.dropWhile p).count c = l.count c := by
  conv_rhs => rw [← List.takeWhile_append_dropWhile p l]
  rw [List.count_append]
  have h0 : (l.takeWhile p).count c = 0 := by
    rw [List.count_eq_zero]
    intro hmem
    exact absurd (List.mem_takeWhile_imp hmem) (by simp [hc])
  omega

theorem pyStrip_count (c : Char) (hc : pyIsSpace c = false) (l : Str) :
    (pyStrip l).count c = l.count c := by
  unfold pyStrip
  rw [List.count_reverse, count_dropWhile pyIsSpace c hc,
    List.count_reverse, count_dropWhile pyIsSpace c hc]

theorem colon_not_space : pyIsSpace ':' = false := by decide

/-! ## Lemmas about the novelty tracker -/

namespace NT

theorem unpackPairs_of_len2 (prs : List (List Str))
    (h : ∀ p ∈ prs, p.length = 2) : ∃ ps, unpackPairs prs = some ps := by
  induction prs with
  | nil => exact ⟨[], rfl⟩
  | cons hd tl ih =>
    obtain ⟨k, v, rfl⟩ : ∃ k v, hd = [k, v] := by
      have h2 := h hd (by simp)
      match hd, h2 with
      | [k, v], _ => exact ⟨k, v, rfl⟩
    obtain ⟨ps, hps⟩ := ih (fun p hp => h p (by simp [hp]))
    exact ⟨(k, v) :: ps, by simp [unpackPairs, hps]⟩

theorem unpackPairs_length (prs : List (List Str)) (ps : List (Str × Str))
    (h : unpackPairs prs = some ps) : ps.length = prs.length := by
  induction prs generalizing ps with
  | nil => simp [unpackPairs] at h; simp [← h]
  | cons hd tl ih =>
    match hd, h with
    | [k, v], h =>
      simp only [unpackPairs, Option.map_eq_some'] at h
      obtain ⟨ps', hps', rfl⟩ := h
      simp [ih ps' hps']

theorem rawPairs_len2 (text : Str)
    (h : ∀ l ∈ pySplit '\n' text, l.count ':' ≤ 1) :
    ∀ p ∈ rawPairs text, p.length = 2 := by
  intro p hp
  simp only [rawPairs, List.mem_map, List.mem_filter] at hp
  obtain ⟨l, ⟨hl, hcol⟩, rfl⟩ := hp
  have hmem : ':' ∈ l := by
    simpa using hcol
  have h1 : l.count ':' = 1 :=
    Nat.le_antisymm (h l hl) (List.count_pos_iff.mpr hmem)
  rw [pySplit_length, pyStrip_count _ colon_not_space, h1]

/-- C2 (counterexample): on the candidate text `"a: b: c"`, whose single line
holds two `':'` separators, `get_novelty_score` does not return a score — the
tuple unpacking `for k, v in pairs` raises `ValueError` (the line is split on
*every* colon into three segments), contradicting the claim that every line is
split on its first `':'` and that a score is returned for any input. -/
theorem get_novelty_score_multicolon_raises :
    (get_novelty_score tracker0 ("a: b: c").data).1 = none := by decide

/-- C2 (amended): when every line of the candidate that holds a `':'` holds
exactly one, `get_novelty_score` returns a score for any such input (lines
without a separator are ignored by the parse), and a candidate with no
parseable pairs scores `0.0`; a line with two or more `':'` characters instead
raises `ValueError`. -/
theorem get_novelty_score_no_error_of_single_colon (t : NoveltyTracker)
    (text : Str) (h : ∀ l ∈ pySplit '\n' text, l.count ':' ≤ 1) :
    (∃ q, (get_novelty_score t text).1 = some q) ∧
    (rawPairs text = [] → (get_novelty_score t text).1 = some 0) := by
  constructor
  · by_cases he : rawPairs text = []
    · exact ⟨0, by simp [get_novelty_score, he]⟩
    · obtain ⟨ps, hps⟩ := unpackPairs_of_len2 _ (rawPairs_len2 text h)
      simp only [get_novelty_score, he, if_false, hps]
      rcases hsf : scoreFold t.key_frequency t.value_frequency ps with ⟨ks, vs, kfvf⟩
      exact ⟨_, rfl⟩
  · intro he
    simp [get_novelty_score, he]

/-- Witness for C2's amended theorem at the concrete candidate
`"lang: python"`. -/
theorem get_novelty_score_no_error_of_single_colon_witness :
    ∃ q, (get_novelty_score tracker0 ("lang: python").data).1 = some q :=
  (get_novelty_score_no_error_of_single_colon tracker0 ("lang: python").data
    (by decide)).1

theorem scoreFold_eq (kf vf : CounterT) (ps : List (Str × Str)) :
    scoreFold kf vf ps =
      (ps.map (fun p => 1 / ((counterGet kf (pyStrip p.1) : ℚ) + 1)),
       ps.map (fun p => 1 / ((counterGet vf (pyStrip p.2) : ℚ) + 1)),
       kf, vf) := by
  induction ps with
  | nil => rfl
  | cons hd tl ih =>
    cases hd
    simp [scoreFold, counterRead, ih]

/-- C4: when the candidate parses into `n ≥ 1` pairs, the score is the mean of
the `2n` contributions `1/(freq(key)+1)` and `1/(freq(value)+1)` — the sum of
all contributions over `2n`; a candidate with zero parseable pairs scores
exactly `0.0`. -/
theorem get_novelty_score_mean_formula (t : NoveltyTracker) (text : Str) :
    (∀ ps, unpackPairs (rawPairs text) = some ps → ps ≠ [] →
      (get_novelty_score t text).1 = some
        (((ps.map (fun p => 1 / ((counterGet t.key_frequency (pyStrip p.1) : ℚ) + 1))).sum +
          (ps.map (fun p => 1 / ((counterGet t.value_frequency (pyStrip p.2) : ℚ) + 1))).sum) /
          (2 * ps.length))) ∧
    (rawPairs text = [] → (get_novelty_score t text).1 = some 0) := by
  constructor
  · intro ps hps hne
    have he : rawPairs text ≠ [] := by
      intro he
      rw [he] at hps
      simp [unpackPairs] at hps
      exact hne hps
    simp only [get_novelty_score, he, if_false, hps, scoreFold_eq]
    simp only [listMean, List.length_map, Option.some.injEq]
    rw [div_add_div_same, div_div]
    ring
  · intro he
    simp [get_novelty_score, he]

/-- Witness for C4 at the candidate `"lang: python"` against a fresh tracker:
one pair, both frequencies 0, score `(1 + 1) / 2 = 1`. -/
theorem get_novelty_score_mean_formula_witness :
    (get_novelty_score tracker0 (("lang: python").data)).1 = some 1 := by
  have h := (get_novelty_score_mean_formula tracker0 (("lang: python").data)).1
    [(("lang").data, (" python").data)] (by decide) (by decide)
  rw [h]
  norm_num [counterGet, tracker0]

/-- C10: scoring is a pure read of the shared model — for every tracker state
and every input, `get_novelty_score` leaves `key_frequency`,
`value_frequency` and `response_history` exactly unchanged (each `Counter`
read returns 0 for a missing key without inserting it); only `add_response`
writes to the model. -/
theorem get_novelty_score_pure (t : NoveltyTracker) (text : Str) :
    (get_novelty_score t text).2.key_frequency = t.key_frequency ∧
    (get_novelty_score t text).2.value_frequency = t.value_frequency ∧
    (get_novelty_score t text).2.response_history = t.response_history := by
  unfold get_novelty_score
  by_cases he : rawPairs text = []
  · simp [he]
  · simp only [he, if_false]
    cases hu : unpackPairs (rawPairs text) with
    | none => simp
    | some ps => simp [scoreFold_eq]

end NT

namespace NT

theorem counterGet_cons_ne (hd : Str × Nat) (rest : CounterT) (s : Str)
    (h : (hd.1 == s) = false) :
    counterGet (hd :: rest) s = counterGet rest s := by
  simp [counterGet, List.find?, h]

theorem counterIncr_cons_ne (hd : Str × Nat) (rest : CounterT) (k : Str)
    (h : (hd.1 == k) = false) :
    counterIncr (hd :: rest) k = hd :: counterIncr rest k := by
  by_cases h2 : rest.any (fun p => p.1 == k) <;>
    simp only [counterIncr, List.any_cons, h, h2, Bool.false_or, if_true,
      Bool.false_eq_true, if_false, List.map_cons, List.cons_append]

theorem counterGet_mapBump_ne (k s : Str) (hks : k ≠ s) (c : CounterT) :
    counterGet (c.map (fun p => if p.1 == k then (p.1, p.2 + 1) else p)) s =
      counterGet c s := by
  induction c with
  | nil => rfl
  | cons hd rest ih =>
    have hkey : ((if hd.1 == k then (hd.1, hd.2 + 1) else hd) : Str × Nat).1 = hd.1 := by
      split <;> rfl
    by_cases hs : (hd.1 == s) = true
    · have hk : (hd.1 == k) = false := by
        simp only [beq_iff_eq] at hs ⊢
        simp [hs, Ne.symm hks]
      simp [counterGet, List.find?, hk, hs]
    · have hs' : (hd.1 == s) = false := by simpa using hs
      rw [List.map_cons, counterGet_cons_ne _ _ _ (by rw [hkey]; exact hs'),
        counterGet_cons_ne _ _ _ hs']
      exact ih

theorem counterIncr_get_self (c : CounterT) (k : Str) :
    counterGet (counterIncr c k) k = counterGet c k + 1 := by
  induction c with
  | nil => simp [counterIncr, counterGet, List.find?]
  | cons hd rest ih =>
    by_cases h : (hd.1 == k) = true
    · have hany : (hd :: rest).any (fun p => p.1 == k) = true := by
        simp [List.any_cons, h]
      simp only [counterIncr, hany, if_true, List.map_cons, h, if_true]
      simp [counterGet, List.find?, h]
    · have h' : (hd.1 == k) = false := by simpa using h
      rw [counterIncr_cons_ne _ _ _ h', counterGet_cons_ne _ _ _ h',
        counterGet_cons_ne _ _ _ h']
      exact ih

theorem counterIncr_get_ne (c : CounterT) (k s : Str) (hks : k ≠ s) :
    counterGet (counterIncr c k) s = counterGet c s := by
  induction c with
  | nil =>
    have : (k == s) = false := by simpa using hks
    simp [counterIncr, counterGet, List.find?, this]
  | cons hd rest ih =>
    by_cases h : (hd.1 == k) = true
    · have hany : (hd :: rest).any (fun p => p.1 == k) = true := by
        simp [List.any_cons, h]
      have hs : (hd.1 == s) = false := by
        simp only [beq_iff_eq] at h ⊢
        simp [h, hks]
      simp only [counterIncr, hany, if_true, List.map_cons, h, if_true]
      rw [counterGet_cons_ne (hd.1, hd.2 + 1) _ s hs,
        counterGet_cons_ne hd rest s hs]
      exact counterGet_mapBump_ne k s hks rest
    · have h' : (hd.1 == k) = false := by simpa using h
      rw [counterIncr_cons_ne _ _ _ h']
      by_cases hs : (hd.1 == s) = true
      · simp [counterGet, List.find?, hs]
      · have hs' : (hd.1 == s) = false := by simpa using hs
        rw [counterGet_cons_ne _ _ _ hs', counterGet_cons_ne _ _ _ hs']
        exact ih

theorem counterIncr_get_le (c : CounterT) (k s : Str) :
    counterGet c s ≤ counterGet (counterIncr c k) s := by
  by_cases h : k = s
  · subst h
    rw [counterIncr_get_self]
    omega
  · rw [counterIncr_get_ne c k s h]

theorem applyPairs_mono (prs : List (List Str)) (kf vf : CounterT) (s : Str) :
    counterGet kf s ≤ counterGet (applyPairs kf vf prs).1 s ∧
    counterGet vf s ≤ counterGet (applyPairs kf vf prs).2.1 s := by
  induction prs generalizing kf vf with
  | nil => simp [applyPairs]
  | cons hd tl ih =>
    match hd with
    | [] => simp [applyPairs]
    | [k] => simp [applyPairs]
    | [k, v] =>
      obtain ⟨h1, h2⟩ := ih (counterIncr kf (pyStrip k)) (counterIncr vf (pyStrip v))
      exact ⟨le_trans (counterIncr_get_le kf (pyStrip k) s)
          (by simpa [applyPairs] using h1),
        le_trans (counterIncr_get_le vf (pyStrip v) s)
          (by simpa [applyPairs] using h2)⟩
    | k :: v :: w :: rest2 => simp [applyPairs]

theorem applyEntries_mono (rd : ResponseDict) (kf vf : CounterT) (s : Str) :
    counterGet kf s ≤ counterGet (applyEntries kf vf rd).1 s ∧
    counterGet vf s ≤ counterGet (applyEntries kf vf rd).2.1 s := by
  induction rd generalizing kf vf with
  | nil => simp [applyEntries]
  | cons hd tl ih =>
    match hd with
    | none => simpa [applyEntries] using ih kf vf
    | some e =>
      rcases hap : applyPairs kf vf (rawPairs e.response) with ⟨kf2, vf2, flag⟩
      have hm := applyPairs_mono (rawPairs e.response) kf vf s
      rw [hap] at hm
      cases flag with
      | true =>
        have := ih kf2 vf2
        exact ⟨le_trans hm.1 (by simpa [applyEntries, hap] using this.1),
          le_trans hm.2 (by simpa [applyEntries, hap] using this.2)⟩
      | false =>
        simpa [applyEntries, hap] using hm

theorem applyPairs_strict (prs : List (List Str)) (ps : List (Str × Str))
    (kf vf : CounterT) (h : unpackPairs prs = some ps) :
    ∀ p ∈ ps,
      counterGet kf (pyStrip p.1) < counterGet (applyPairs kf vf prs).1 (pyStrip p.1) ∧
      counterGet vf (pyStrip p.2) < counterGet (applyPairs kf vf prs).2.1 (pyStrip p.2) := by
  induction prs generalizing ps kf vf with
  | nil =>
    simp only [unpackPairs, Option.some.injEq] at h
    subst h
    intro p hp
    simp at hp
  | cons hd tl ih =>
    match hd, h with
    | [k, v], h =>
      simp only [unpackPairs, Option.map_eq_some'] at h
      obtain ⟨ps', hps', rfl⟩ := h
      intro p hp
      rcases List.mem_cons.mp hp with heq | hp'
      · subst heq
        constructor
        · calc counterGet kf (pyStrip k)
              < counterGet (counterIncr kf (pyStrip k)) (pyStrip k) := by
                rw [counterIncr_get_self]; omega
            _ ≤ _ := by
                simpa [applyPairs] using
                  (applyPairs_mono tl (counterIncr kf (pyStrip k))
                    (counterIncr vf (pyStrip v)) (pyStrip k)).1
        · calc counterGet vf (pyStrip v)
              < counterGet (counterIncr vf (pyStrip v)) (pyStrip v) := by
                rw [counterIncr_get_self]; omega
            _ ≤ _ := by
                simpa [applyPairs] using
                  (applyPairs_mono tl (counterIncr kf (pyStrip k))
                    (counterIncr vf (pyStrip v)) (pyStrip v)).2
      · have := ih ps' (counterIncr kf (pyStrip k)) (counterIncr vf (pyStrip v)) hps' p hp'
        constructor
        · exact lt_of_le_of_lt (counterIncr_get_le kf (pyStrip k) (pyStrip p.1))
            (by simpa [applyPairs] using this.1)
        · exact lt_of_le_of_lt (counterIncr_get_le vf (pyStrip v) (pyStrip p.2))
            (by simpa [applyPairs] using this.2)

theorem applyEntries_strict (rd : ResponseDict) (kf vf : CounterT)
    (hflag : (applyEntries kf vf rd).2.2 = true) :
    ∀ a : AgentEntry, some a ∈ rd →
      ∀ ps, unpackPairs (rawPairs a.response) = some ps →
        ∀ p ∈ ps,
          counterGet kf (pyStrip p.1) < counterGet (applyEntries kf vf rd).1 (pyStrip p.1) ∧
          counterGet vf (pyStrip p.2) < counterGet (applyEntries kf vf rd).2.1 (pyStrip p.2) := by
  induction rd generalizing kf vf with
  | nil =>
    intro a ha
    simp at ha
  | cons hd tl ih =>
    match hd with
    | none =>
      intro a ha ps hps p hp
      rcases List.mem_cons.mp ha with h0 | ha'
      · exact absurd h0 (by simp)
      · have hflag' : (applyEntries kf vf tl).2.2 = true := by
          simpa [applyEntries] using hflag
        simpa [applyEntries] using ih kf vf hflag' a ha' ps hps p hp
    | some e =>
      rcases hap : applyPairs kf vf (rawPairs e.response) with ⟨kf2, vf2, flag⟩
      cases flag with
      | false =>
        rw [applyEntries, hap] at hflag
        simp at hflag
      | true =>
        intro a ha ps hps p hp
        rw [applyEntries, hap]
        rcases List.mem_cons.mp ha with h0 | ha'
        · have he : e = a := by simpa using h0.symm
          subst he
          have hst := applyPairs_strict (rawPairs e.response) ps kf vf hps p hp
          rw [hap] at hst
          have hm := applyEntries_mono tl kf2 vf2
          exact ⟨lt_of_lt_of_le hst.1 (hm (pyStrip p.1)).1,
            lt_of_lt_of_le hst.2 (hm (pyStrip p.2)).2⟩
        · have hm := applyPairs_mono (rawPairs e.response) kf vf
          rw [hap] at hm
          have hflag' : (applyEntries kf2 vf2 tl).2.2 = true := by
            rw [applyEntries, hap] at hflag
            exact hflag
          have := ih kf2 vf2 hflag' a ha' ps hps p hp
          exact ⟨lt_of_le_of_lt (hm (pyStrip p.1)).1 this.1,
            lt_of_le_of_lt (hm (pyStrip p.2)).2 this.2⟩

theorem add_response_mono (t : NoveltyTracker) (rd : ResponseDict) (s : Str) :
    counterGet t.key_frequency s ≤ counterGet (add_response t rd).1.key_frequency s ∧
    counterGet t.value_frequency s ≤ counterGet (add_response t rd).1.value_frequency s := by
  have hm := applyEntries_mono rd t.key_frequency t.value_frequency s
  rcases hae : applyEntries t.key_frequency t.value_frequency rd with ⟨kf, vf, flag⟩
  rw [hae] at hm
  cases flag <;> simpa [add_response, hae] using hm

theorem novelty_score_antitone (t1 t2 : NoveltyTracker) (text : Str) (q1 : ℚ)
    (hk : ∀ s, counterGet t1.key_frequency s ≤ counterGet t2.key_frequency s)
    (hv : ∀ s, counterGet t1.value_frequency s ≤ counterGet t2.value_frequency s)
    (h1 : (get_novelty_score t1 text).1 = some q1) :
    ∃ q2, (get_novelty_score t2 text).1 = some q2 ∧ q2 ≤ q1 := by
  by_cases he : rawPairs text = []
  · refine ⟨0, by simp [get_novelty_score, he], ?_⟩
    simp [get_novelty_score, he] at h1
    linarith [h1.le, h1.ge]
  · cases hu : unpackPairs (rawPairs text) with
    | none =>
      rw [get_novelty_score] at h1
      simp [he, hu] at h1
    | some ps =>
      have hne : ps ≠ [] := by
        intro hps
        subst hps
        exact he (by simpa using (unpackPairs_length _ _ hu).symm)
      have h2 := (get_novelty_score_mean_formula t2 text).1 ps hu hne
      refine ⟨_, h2, ?_⟩
      have h1' := (get_novelty_score_mean_formula t1 text).1 ps hu hne
      rw [h1'] at h1
      have hq1 := Option.some.inj h1
      rw [← hq1]
      have hlen : (0 : ℚ) < 2 * ps.length := by
        have := List.length_pos.mpr hne
        have : (0 : ℚ) < ps.length := by exact_mod_cast this
        linarith
      apply div_le_div_of_nonneg_right ?_ hlen.le
      apply add_le_add
      · apply List.sum_le_sum
        intro p hp
        have h0 : (0 : ℚ) < (counterGet t1.key_frequency (pyStrip p.1) : ℚ) + 1 := by
          positivity
        apply one_div_le_one_div_of_le h0
        have hcast : ((counterGet t1.key_frequency (pyStrip p.1) : ℚ)) ≤
            (counterGet t2.key_frequency (pyStrip p.1) : ℚ) := by
          exact_mod_cast hk (pyStrip p.1)
        linarith
      · apply List.sum_le_sum
        intro p hp
        have h0 : (0 : ℚ) < (counterGet t1.value_frequency (pyStrip p.2) : ℚ) + 1 := by
          positivity
        apply one_div_le_one_div_of_le h0
        have hcast : ((counterGet t1.value_frequency (pyStrip p.2) : ℚ)) ≤
            (counterGet t2.value_frequency (pyStrip p.2) : ℚ) := by
          exact_mod_cast hv (pyStrip p.2)
        linarith

/-- C6: observing a response via `add_response` (when its lines all parse)
strictly increases the stored frequency of every parsed key and value, never
decreases any frequency, and consequently re-scoring an identical candidate
after the observation yields a novelty score less than or equal to the
original score. -/
theorem add_response_strictly_increases (t : NoveltyTracker) (rd : ResponseDict) :
    (∀ s, counterGet t.key_frequency s ≤ counterGet (add_response t rd).1.key_frequency s ∧
      counterGet t.value_frequency s ≤ counterGet (add_response t rd).1.value_frequency s) ∧
    ((add_response t rd).2 = true →
      ∀ a : AgentEntry, some a ∈ rd →
        ∀ ps, unpackPairs (rawPairs a.response) = some ps →
          ∀ p ∈ ps,
            counterGet t.key_frequency (pyStrip p.1) <
              counterGet (add_response t rd).1.key_frequency (pyStrip p.1) ∧
            counterGet t.value_frequency (pyStrip p.2) <
              counterGet (add_response t rd).1.value_frequency (pyStrip p.2)) ∧
    (∀ text q1, (get_novelty_score t text).1 = some q1 →
      ∃ q2, (get_novelty_score (add_response t rd).1 text).1 = some q2 ∧ q2 ≤ q1) := by
  refine ⟨fun s => add_response_mono t rd s, ?_, ?_⟩
  · intro hok a ha ps hps p hp
    rcases hae : applyEntries t.key_frequency t.value_frequency rd with ⟨kf, vf, flag⟩
    cases flag with
    | false => simp [add_response, hae] at hok
    | true =>
      have hst := applyEntries_strict rd t.key_frequency t.value_frequency
        (by rw [hae]) a ha ps hps p hp
      rw [hae] at hst
      simpa [add_response, hae] using hst
  · intro text q1 h1
    exact novelty_score_antitone t (add_response t rd).1 text q1
      (fun s => (add_response_mono t rd s).1)
      (fun s => (add_response_mono t rd s).2) h1

/-- Witness for C6 at a fresh tracker observing one response
`"lang: python"`: the key `"lang"` rises from frequency 0 to a strictly
positive frequency. -/
theorem add_response_strictly_increases_witness :
    0 < counterGet
      ((add_response tracker0 [some ⟨("lang: python").data⟩]).1).key_frequency
      (("lang").data) := by
  have h := (add_response_strictly_increases tracker0
    [some ⟨("lang: python").data⟩]).2.1 (by decide)
    ⟨("lang: python").data⟩ (by simp)
    [(("lang").data, (" python").data)] (by decide)
    ((("lang").data, (" python").data)) (by simp)
  have h1 : pyStrip (("lang").data) = ("lang").data := by decide
  rw [h1] at h
  exact lt_of_le_of_lt (Nat.zero_le _) h.1

end NT

namespace NT

theorem seed_le_foldl_max (x : ℚ) (xs : List ℚ) : x ≤ xs.foldl max x := by
  induction xs generalizing x with
  | nil => exact le_refl x
  | cons y ys ih =>
    rw [List.foldl_cons]
    exact le_trans (le_max_left x y) (ih (max x y))

theorem mem_le_foldl_max (x z : ℚ) (xs : List ℚ) (hz : z ∈ xs) :
    z ≤ xs.foldl max x := by
  induction xs generalizing x with
  | nil => simp at hz
  | cons y ys ih =>
    rw [List.foldl_cons]
    rcases List.mem_cons.mp hz with rfl | h2
    · exact le_trans (le_max_right x z) (seed_le_foldl_max (max x z) ys)
    · exact ih (max x y) h2

theorem foldl_max_mem (x : ℚ) (xs : List ℚ) : xs.foldl max x ∈ x :: xs := by
  induction xs generalizing x with
  | nil => simp
  | cons y ys ih =>
    rw [List.foldl_cons]
    rcases List.mem_cons.mp (ih (max x y)) with heq | hmem
    · rw [heq]
      rcases max_choice x y with h1 | h1 <;> simp [h1]
    · simp [hmem]

theorem listMax_mem (l : List ℚ) (h : l ≠ []) : listMax l ∈ l := by
  match l with
  | x :: xs =>
    show xs.foldl max x ∈ x :: xs
    exact foldl_max_mem x xs

theorem le_listMax (l : List ℚ) (x : ℚ) (hx : x ∈ l) : x ≤ listMax l := by
  match l with
  | [] => simp at hx
  | y :: ys =>
    show x ≤ ys.foldl max y
    rcases List.mem_cons.mp hx with rfl | h
    · exact seed_le_foldl_max x ys
    · exact mem_le_foldl_max y x ys h

theorem argmaxQ_lt_length (l : List ℚ) (h : l ≠ []) : argmaxQ l < l.length :=
  List.findIdx_lt_length_of_exists ⟨listMax l, listMax_mem l h, by simp⟩

theorem argmaxQ_getD_eq_max (l : List ℚ) (h : l ≠ []) :
    l.getD (argmaxQ l) 0 = listMax l := by
  have hlt := argmaxQ_lt_length l h
  have hp := @List.findIdx_getElem ℚ (fun x => x == listMax l) l hlt
  rw [List.getD_eq_getElem l 0 hlt]
  simpa using hp

theorem argmaxQ_spec (l : List ℚ) (h : l ≠ []) :
    (∀ j, j < l.length → l.getD j 0 ≤ l.getD (argmaxQ l) 0) ∧
    (∀ j, j < l.length → l.getD j 0 = l.getD (argmaxQ l) 0 → argmaxQ l ≤ j) := by
  constructor
  · intro j hj
    rw [argmaxQ_getD_eq_max l h, List.getD_eq_getElem l 0 hj]
    exact le_listMax l _ (List.getElem_mem hj)
  · intro j hj heq
    by_contra hlt
    push_neg at hlt
    have hne := @List.not_of_lt_findIdx ℚ (fun x => x == listMax l) l j hlt
    rw [List.getD_eq_getElem l 0 hj, argmaxQ_getD_eq_max l h] at heq
    exact absurd heq (by simpa using hne)

theorem scoreCandidates_length (t : NoveltyTracker) (rs : List Str)
    (ns : List ℚ) (t2 : NoveltyTracker)
    (h : scoreCandidates t rs = (some ns, t2)) : ns.length = rs.length := by
  induction rs generalizing t ns t2 with
  | nil =>
    simp only [scoreCandidates, Prod.mk.injEq, Option.some.injEq] at h
    simp [← h.1]
  | cons r rest ih =>
    rcases hg : get_novelty_score t r with ⟨q?, tg⟩
    cases q? with
    | none =>
      simp only [scoreCandidates, hg] at h
      simp at h
    | some q =>
      simp only [scoreCandidates, hg] at h
      rcases hs : scoreCandidates tg rest with ⟨ns?, t3⟩
      cases ns? with
      | none => simp only [hs] at h; simp at h
      | some ns2 =>
        simp only [hs, Prod.mk.injEq, Option.some.injEq] at h
        rw [← h.1]
        simp [ih tg ns2 t3 (by rw [hs, h.2])]

/-- C3 (counterexample): when the generation collaborator errors on the very
first candidate attempt (so all collected attempts failed), `query_ollama`
does not surface the error to its caller — the `except` handler catches it
and the call returns the fallback string `"Error generating response"`, so
the remaining chain steps for the item proceed with this value instead of
being aborted. -/
theorem query_ollama_swallows_error :
    (query_ollama tracker0 novelty_weight (fun _ => Except.error ())).1 =
      errFallback := by decide

/-- C3 (amended): if a generation attempt raises, `query_ollama` catches the
error and returns a value: the first collected candidate when at least one
attempt succeeded before the failure, and the literal string
`"Error generating response"` otherwise.  The error is never propagated to
the caller. -/
theorem query_ollama_fallback_on_error (t : NoveltyTracker) (w : ℚ)
    (gen : Nat → Except Unit Str) (h : (collect3 gen).2 = false) :
    (query_ollama t w gen).1 = (collect3 gen).1.headD errFallback := by
  rcases hc : collect3 gen with ⟨rs, flag⟩
  rw [hc] at h
  simp only at h
  subst h
  simp [query_ollama, hc]

/-- Witness for C3's amended theorem: the first attempt yields `"a: b"`, the
second raises; the call returns the first collected candidate. -/
theorem query_ollama_fallback_on_error_witness :
    (query_ollama tracker0 novelty_weight
      (fun i => if i = 0 then Except.ok (("a: b").data) else Except.error ())).1 =
      (("a: b").data) := by
  have h := query_ollama_fallback_on_error tracker0 novelty_weight
    (fun i => if i = 0 then Except.ok (("a: b").data) else Except.error ())
    (by decide)
  rw [h]
  decide

/-- C5: with a fixed candidate list, fixed tracker state and weight
`w ∈ [0,1]`, when all three generation attempts succeed and every candidate
scores without error, `query_ollama` assigns each candidate the final score
`(1-w)*1.0 + w*novelty` (base confidence constant `1.0` for all) and returns
the candidate at the first index attaining the maximal final score (ties
break toward the first-generated candidate); being a pure function of its
inputs, repeated runs return the same candidate. -/
theorem query_ollama_selects_first_max (t : NoveltyTracker) (w : ℚ)
    (gen : Nat → Except Unit Str) (rs : List Str) (ns : List ℚ)
    (t2 : NoveltyTracker) (hw0 : 0 ≤ w) (hw1 : w ≤ 1)
    (hc : collect3 gen = (rs, true))
    (hs : scoreCandidates t rs = (some ns, t2)) :
    (query_ollama t w gen).1 =
      rs.getD (argmaxQ (List.zipWith (fun b n => (1 - w) * b + w * n)
        (rs.map (fun _ => (1 : ℚ))) ns)) [] ∧
    argmaxQ (List.zipWith (fun b n => (1 - w) * b + w * n)
      (rs.map (fun _ => (1 : ℚ))) ns) < rs.length ∧
    (∀ j, j < (List.zipWith (fun b n => (1 - w) * b + w * n)
        (rs.map (fun _ => (1 : ℚ))) ns).length →
      (List.zipWith (fun b n => (1 - w) * b + w * n)
        (rs.map (fun _ => (1 : ℚ))) ns).getD j 0 ≤
      (List.zipWith (fun b n => (1 - w) * b + w * n)
        (rs.map (fun _ => (1 : ℚ))) ns).getD (argmaxQ (List.zipWith
          (fun b n => (1 - w) * b + w * n) (rs.map (fun _ => (1 : ℚ))) ns)) 0) ∧
    (∀ j, j < (List.zipWith (fun b n => (1 - w) * b + w * n)
        (rs.map (fun _ => (1 : ℚ))) ns).length →
      (List.zipWith (fun b n => (1 - w) * b + w * n)
        (rs.map (fun _ => (1 : ℚ))) ns).getD j 0 =
      (List.zipWith (fun b n => (1 - w) * b + w * n)
        (rs.map (fun _ => (1 : ℚ))) ns).getD (argmaxQ (List.zipWith
          (fun b n => (1 - w) * b + w * n) (rs.map (fun _ => (1 : ℚ))) ns)) 0 →
      argmaxQ (List.zipWith (fun b n => (1 - w) * b + w * n)
        (rs.map (fun _ => (1 : ℚ))) ns) ≤ j) := by
  have hrs : rs.length = 3 := by
    rcases h0 : gen 0 with e | r0
    · simp [collect3, h0] at hc
    · rcases h1 : gen 1 with e1 | r1
      · simp [collect3, h0, h1] at hc
      · rcases h2 : gen 2 with e2 | r2
        · simp [collect3, h0, h1, h2] at hc
        · simp only [collect3, h0, h1, h2, Prod.mk.injEq] at hc
          rw [← hc.1]
          rfl
  have hns : ns.length = rs.length := scoreCandidates_length t rs ns t2 hs
  have hfin : (List.zipWith (fun b n => (1 - w) * b + w * n)
      (rs.map (fun _ => (1 : ℚ))) ns) ≠ [] := by
    have : (List.zipWith (fun b n => (1 - w) * b + w * n)
        (rs.map (fun _ => (1 : ℚ))) ns).length = 3 := by
      rw [List.length_zipWith, List.length_map, hns, hrs]
      simp
    intro hcon
    rw [hcon] at this
    simp at this
  have hspec := argmaxQ_spec _ hfin
  refine ⟨?_, ?_, hspec.1, hspec.2⟩
  · simp only [query_ollama, hc, hs]
  · have := argmaxQ_lt_length _ hfin
    rw [List.length_zipWith, List.length_map, hns, hrs] at this
    simpa [hrs] using this

/-- Witness for C5: three colon-free candidates all score 0 novelty, so all
final scores tie at `1 - w`; the selector deterministically returns the
first-generated candidate. -/
theorem query_ollama_selects_first_max_witness :
    (query_ollama tracker0 novelty_weight
      (fun i => Except.ok (if i = 0 then ("aa").data
        else if i = 1 then ("bb").data else ("cc").data))).1 =
      (("aa").data) := by
  have h := query_ollama_selects_first_max tracker0 novelty_weight
    (fun i => Except.ok (if i = 0 then ("aa").data
      else if i = 1 then ("bb").data else ("cc").data))
    [("aa").data, ("bb").data, ("cc").data] [0, 0, 0] tracker0
    (by norm_num [novelty_weight]) (by norm_num [novelty_weight])
    (by rfl) (by rfl)
  rw [h.1]
  simp [argmaxQ, listMax, List.zipWith, List.map, max_self,
    List.findIdx_cons, List.getD]

end NT

namespace CB

theorem collectorEnqueue_step {α : Type} (q : BoundedQueue α) (c : Option α)
    (h : q.items.length ≤ q.maxsize) :
    (collectorEnqueue q c).items.length ≤ q.maxsize ∧
    (collectorEnqueue q c).maxsize = q.maxsize := by
  cases c with
  | none => exact ⟨h, rfl⟩
  | some it =>
    by_cases hf : queueFull q = true
    · simp [collectorEnqueue, hf, h]
    · have hlt : q.items.length < q.maxsize := by
        simp [queueFull] at hf
        exact hf
      simp [collectorEnqueue, hf]
      omega

/-- C7: for every sequence of enqueue attempts by the collector, the content
queue never holds more than `maxsize` items, and when the queue is full an
enqueue attempt drops the item, returning the queue unchanged instead of
blocking the producer. -/
theorem collectorEnqueue_capacity {α : Type} (q : BoundedQueue α)
    (attempts : List (Option α)) (h : q.items.length ≤ q.maxsize) :
    (attempts.foldl collectorEnqueue q).items.length ≤ q.maxsize ∧
    (∀ it, queueFull q = true → collectorEnqueue q (some it) = q) := by
  constructor
  · induction attempts generalizing q with
    | nil => exact h
    | cons c rest ih =>
      rw [List.foldl_cons]
      have hstep := collectorEnqueue_step q c h
      have := ih (collectorEnqueue q c) (hstep.2 ▸ hstep.1)
      rwa [hstep.2] at this
  · intro it hf
    simp [collectorEnqueue, hf]

/-- Witness for C7: three enqueue attempts into a queue of capacity 2 leave at
most 2 items, and an enqueue on the full queue returns it unchanged. -/
theorem collectorEnqueue_capacity_witness :
    ((([some 1, some 2, some 3] : List (Option Nat)).foldl collectorEnqueue
      ⟨[], 2⟩).items.length ≤ 2) ∧
    collectorEnqueue (⟨[10, 11], 2⟩ : BoundedQueue Nat) (some 12) = ⟨[10, 11], 2⟩ := by
  have h := collectorEnqueue_capacity (⟨[], 2⟩ : BoundedQueue Nat)
    [some 1, some 2, some 3] (by decide)
  refine ⟨h.1, ?_⟩
  exact (collectorEnqueue_capacity (⟨[10, 11], 2⟩ : BoundedQueue Nat) []
    (by decide)).2 12 (by decide)

theorem process_text_success (hashFn : Str → Nat) (saveFn : Str → Str)
    (minLen : Nat) (last : Option Nat) (text : Str)
    (ht : text ≠ []) (hlen : minLen ≤ text.length)
    (hne : some (hashFn text) ≠ last) :
    process_clipboard_content hashFn saveFn minLen last text none =
      (some (.text text (hashFn text)), some (hashFn text)) := by
  have hs : strOfSource text none = text := by simp [strOfSource, ht]
  have hg : ¬(some (hashFn (strOfSource text none)) = last ∨
      (text ≠ [] ∧ text.length < minLen)) := by
    rw [hs]
    rintro (hcase | ⟨-, hlt⟩)
    · exact hne hcase
    · omega
  simp only [process_clipboard_content]
  rw [if_neg hg, if_pos ht, hs]

/-- C8: deduplication compares only against the single most recently seen
fingerprint.  First conjunct: a capture that produced an item is followed, on
an identical repeat, by no item (exactly one novel item for two consecutive
identical captures).  Second conjunct: in a capture sequence `t1, t2, t1`
with differing fingerprints, the third capture (whose fingerprint was seen
earlier but differs from the immediately previous one) is again treated as
novel and produces an item. -/
theorem process_clipboard_dedup (hashFn : Str → Nat) (saveFn : Str → Str)
    (minLen : Nat) :
    (∀ last text shot item st2,
      process_clipboard_content hashFn saveFn minLen last text shot =
        (some item, st2) →
      process_clipboard_content hashFn saveFn minLen st2 text shot =
        (none, st2)) ∧
    (∀ st0 t1 t2, t1 ≠ [] → t2 ≠ [] → minLen ≤ t1.length → minLen ≤ t2.length →
      hashFn t1 ≠ hashFn t2 → some (hashFn t1) ≠ st0 →
      (process_clipboard_content hashFn saveFn minLen st0 t1 none).1 =
        some (CapturedItem.text t1 (hashFn t1)) ∧
      (process_clipboard_content hashFn saveFn minLen
        (process_clipboard_content hashFn saveFn minLen st0 t1 none).2
        t2 none).1 = some (CapturedItem.text t2 (hashFn t2)) ∧
      (process_clipboard_content hashFn saveFn minLen
        (process_clipboard_content hashFn saveFn minLen
          (process_clipboard_content hashFn saveFn minLen st0 t1 none).2
          t2 none).2 t1 none).1 =
        some (CapturedItem.text t1 (hashFn t1))) := by
  constructor
  · intro last text shot item st2 h
    have hst2 : st2 = some (hashFn (strOfSource text shot)) := by
      simp only [process_clipboard_content] at h
      split_ifs at h with h1 h2
      · simp at h
      · simp only [Prod.mk.injEq] at h
        exact h.2.symm
      · cases shot with
        | some p =>
          simp only [Prod.mk.injEq] at h
          exact h.2.symm
        | none => simp at h
    simp [process_clipboard_content, hst2]
  · intro st0 t1 t2 ht1 ht2 hl1 hl2 hne hst0
    have h1 := process_text_success hashFn saveFn minLen st0 t1 ht1 hl1 hst0
    have h2 := process_text_success hashFn saveFn minLen (some (hashFn t1)) t2
      ht2 hl2 (by simpa using (Ne.symm hne))
    have h3 := process_text_success hashFn saveFn minLen (some (hashFn t2)) t1
      ht1 hl1 (by simpa using hne)
    refine ⟨by rw [h1], ?_, ?_⟩
    · rw [h1]
      simp only
      rw [h2]
    · rw [h1]
      simp only
      rw [h2]
      simp only
      rw [h3]

/-- Witness for C8: with `hashFn = length`, `minLen = 2`, captures `"ab"`
then `"ab"` again produce exactly one item; and the first capture of a fresh
state produces its item. -/
theorem process_clipboard_dedup_witness :
    process_clipboard_content (fun s => s.length) id 2 (some 2) (("ab").data)
      none = (none, some 2) ∧
    (process_clipboard_content (fun s => s.length) id 2 none (("ab").data)
      none).1 = some (CapturedItem.text (("ab").data) 2) := by
  constructor
  · exact (process_clipboard_dedup (fun s => s.length) id 2).1 none
      (("ab").data) none (CapturedItem.text (("ab").data) 2) (some 2)
      (by decide)
  · exact ((process_clipboard_dedup (fun s => s.length) id 2).2 none
      (("ab").data) (("abcd").data) (by decide) (by decide) (by decide)
      (by decide) (by decide) (by decide)).1

/-- C9 (counterexample): a capture tick with *empty* clipboard text (length
`0 < min_content_length = 10`) and a screenshot present is not rejected: the
empty text makes the min-length guard falsy (`text_content and ...`), the
code falls through to the screenshot branch and produces an image item, so
"text shorter than minContentLength produces no item" fails at this input. -/
theorem process_short_text_counterexample :
    (process_clipboard_content (fun s => s.length) id min_content_length none
      [] (some (("shot.png").data))).1 =
      some (CapturedItem.image (("shot.png").data) 8) := by decide

/-- C9 (amended): every capture with *non-empty* text shorter than
`minContentLength` produces no item and leaves the dedup state unchanged,
regardless of its fingerprint; an empty text instead falls through to the
screenshot branch. -/
theorem process_short_text_no_item (hashFn : Str → Nat) (saveFn : Str → Str)
    (minLen : Nat) (last : Option Nat) (text : Str) (shot : Option Str)
    (ht : text ≠ []) (hshort : text.length < minLen) :
    process_clipboard_content hashFn saveFn minLen last text shot =
      (none, last) := by
  simp only [process_clipboard_content]
  rw [if_pos (Or.inr ⟨ht, hshort⟩)]

/-- Witness for C9's amended theorem: the 2-character text `"hi"` with
`min_content_length = 10` produces no item even though its fingerprint is
fresh. -/
theorem process_short_text_no_item_witness :
    process_clipboard_content (fun s => s.length) id min_content_length none
      (("hi").data) none = (none, none) :=
  process_short_text_no_item (fun s => s.length) id min_content_length none
    (("hi").data) none (by decide) (by decide)

end CB

theorem subAt_self_append (n t : Str) : subAt n (n ++ t) = true := by
  induction n with
  | nil => rfl
  | cons a as ih => simp [subAt, ih]

theorem strHasSub_sandwich (pre n post : Str) :
    strHasSub n (pre ++ (n ++ post)) = true := by
  induction pre with
  | nil =>
    match n with
    | [] => cases post <;> simp [strHasSub, subAt]
    | a :: as =>
      show strHasSub (a :: as) ((a :: as) ++ post) = true
      have h := subAt_self_append (a :: as) post
      rw [List.cons_append]
      show (subAt (a :: as) (a :: (as ++ post)) ||
        strHasSub (a :: as) (as ++ post)) = true
      rw [List.cons_append] at h
      simp [h]
  | cons c cs ih =>
    rw [List.cons_append]
    show (subAt n (c :: (cs ++ (n ++ post))) ||
      strHasSub n (cs ++ (n ++ post))) = true
    rw [ih, Bool.or_true]

theorem strHasSub_of_parts (n hay pre post : Str)
    (h : hay = pre ++ (n ++ post)) : strHasSub n hay = true :=
  h ▸ strHasSub_sandwich pre n post

theorem pyJoin_pySplit (sep : Char) (s : Str) :
    pyJoin sep (pySplit sep s) = s := by
  induction s with
  | nil => rfl
  | cons c rest ih =>
    rcases hr : pySplit sep rest with _ | ⟨h1, t1⟩
    · exact absurd hr (pySplit_ne_nil sep rest)
    · rw [hr] at ih
      by_cases hc : (c == sep) = true
      · have hceq : c = sep := by simpa using hc
        simp only [pySplit, hc, if_true, hr]
        cases t1 with
        | nil => simp [pyJoin] at ih ⊢; simp [ih, hceq]
        | cons h2 t2 => simp [pyJoin] at ih ⊢; simp [ih, hceq]
      · simp only [pySplit, hc, Bool.false_eq_true, if_false, hr]
        cases t1 with
        | nil =>
          simp [pyJoin] at ih ⊢
          simp [ih]
        | cons h2 t2 =>
          simp [pyJoin] at ih ⊢
          simp [ih]

theorem mapIdOn {α : Type} (f : α → α) (l : List α) (h : ∀ a ∈ l, f a = a) :
    l.map f = l := by
  induction l with
  | nil => rfl
  | cons a as ih =>
    rw [List.map_cons, h a (by simp), ih (fun b hb => h b (by simp [hb]))]

namespace CB

theorem kvLines_id (s : Str)
    (h : ∀ l ∈ pySplit '\n' s, l.contains ':' = true ∧ pyStrip l = l) :
    pyJoin '\n' (kvLines s) = s := by
  unfold kvLines
  rw [List.filter_eq_self.mpr (fun l hl => (h l hl).1)]
  rw [mapIdOn pyStrip _ (fun l hl => (h l hl).2)]
  exact pyJoin_pySplit '\n' s

theorem fmt_one (r0 : Str) :
    format_previous_thoughts [r0] =
      ("curator").data ++ (":\n").data ++ pyJoin '\n' (kvLines r0) := by
  simp [format_previous_thoughts, fmtEntries, agentIds, pyJoin]

theorem fmt_two (r0 r1 : Str) :
    format_previous_thoughts [r0, r1] =
      (("curator").data ++ (":\n").data ++ pyJoin '\n' (kvLines r0)) ++
        '\n' :: (("analyst").data ++ (":\n").data ++ pyJoin '\n' (kvLines r1)) := by
  simp [format_previous_thoughts, fmtEntries, agentIds, pyJoin]

end CB

namespace CB

theorem analyst_prompt_parts (r0 m tcb : Str) :
    analystTemplate (("curator").data ++ (":\n").data ++ r0) ++ m ++ tcb =
      (analystPre ++ ("curator").data ++ (":\n").data) ++
        (r0 ++ (analystPost ++ m ++ tcb)) := by
  simp [analystTemplate, List.append_assoc]

theorem synth_prompt_parts_first (r0 r1 m tcb : Str) :
    synthesizerTemplate ((("curator").data ++ (":\n").data ++ r0) ++
        '\n' :: (("analyst").data ++ (":\n").data ++ r1)) ++ m ++ tcb =
      (synthesizerPre ++ ("curator").data ++ (":\n").data) ++
        (r0 ++ (('\n' :: (("analyst").data ++ (":\n").data ++ r1)) ++
          synthesizerPost ++ m ++ tcb)) := by
  simp [synthesizerTemplate, List.append_assoc]

theorem synth_prompt_parts_second (r0 r1 m tcb : Str) :
    synthesizerTemplate ((("curator").data ++ (":\n").data ++ r0) ++
        '\n' :: (("analyst").data ++ (":\n").data ++ r1)) ++ m ++ tcb =
      (synthesizerPre ++ ("curator").data ++ (":\n").data ++ r0 ++
        '\n' :: (("analyst").data ++ (":\n").data)) ++
        (r1 ++ (synthesizerPost ++ m ++ tcb)) := by
  simp [synthesizerTemplate, List.append_assoc, List.cons_append]

theorem query_ai_steps_shape (gen : Str → Str) (content : Str) :
    ∃ r0 r1 r2,
      query_ai_steps gen content =
        [(curatorTemplate (format_previous_thoughts []) ++
            ("\n\nContent to analyze:\n").data ++ truncate_content content 512, r0),
         (analystTemplate (format_previous_thoughts [r0]) ++
            ("\n\nContent to analyze:\n").data ++ truncate_content content 512, r1),
         (synthesizerTemplate (format_previous_thoughts [r0, r1]) ++
            ("\n\nContent to analyze:\n").data ++ truncate_content content 512, r2)] := by
  exact ⟨_, _, _, rfl⟩

/-- C1 (amended): in a `query_ai` run over `[curator, analyst, synthesizer]`
on one text item, each later prompt embeds the *colon-containing lines* of
every earlier truncated agent output (the context is rendered by
`format_previous_thoughts`, which keeps only lines holding a colon and
strips each).  Consequently, whenever an earlier truncated output consists
entirely of already-stripped lines that each contain a colon, that output
appears verbatim as a substring: under that hypothesis on the first two
truncated responses, the analyst prompt contains the curator response and
the synthesizer prompt contains both. -/
theorem chain_prompts_contain_prior_outputs (gen : Str → Str) (content : Str)
    (h0 : ∀ l ∈ pySplit '\n' ((query_ai_steps gen content).getD 0 ([], [])).2,
      l.contains ':' = true ∧ pyStrip l = l)
    (h1 : ∀ l ∈ pySplit '\n' ((query_ai_steps gen content).getD 1 ([], [])).2,
      l.contains ':' = true ∧ pyStrip l = l) :
    strHasSub ((query_ai_steps gen content).getD 0 ([], [])).2
      ((query_ai_steps gen content).getD 1 ([], [])).1 = true ∧
    strHasSub ((query_ai_steps gen content).getD 0 ([], [])).2
      ((query_ai_steps gen content).getD 2 ([], [])).1 = true ∧
    strHasSub ((query_ai_steps gen content).getD 1 ([], [])).2
      ((query_ai_steps gen content).getD 2 ([], [])).1 = true := by
  obtain ⟨r0, r1, r2, hsteps⟩ := query_ai_steps_shape gen content
  rw [hsteps] at h0 h1 ⊢
  simp only [List.getD_cons_zero, List.getD_cons_succ] at h0 h1 ⊢
  refine ⟨?_, ?_, ?_⟩
  · rw [fmt_one, kvLines_id _ h0]
    exact strHasSub_of_parts _ _ _ _ (analyst_prompt_parts _ _ _)
  · rw [fmt_two, kvLines_id _ h0, kvLines_id _ h1]
    exact strHasSub_of_parts _ _ _ _ (synth_prompt_parts_first _ _ _ _)
  · rw [fmt_two, kvLines_id _ h0, kvLines_id _ h1]
    exact strHasSub_of_parts _ _ _ _ (synth_prompt_parts_second _ _ _ _)

/-- C1 (counterexample): when the truncated curator response is
`"hello\nlang: python"` — whose first line holds no colon — the analyst
prompt does *not* contain that response verbatim as a substring:
`format_previous_thoughts` drops the line `"hello"`, so only
`"lang: python"` is embedded, refuting the claim as stated. -/
theorem chain_prompt_counterexample :
    strHasSub ((query_ai_steps (fun _ => ("hello\nlang: python").data)
        (("print(42)").data)).getD 0 ([], [])).2
      ((query_ai_steps (fun _ => ("hello\nlang: python").data)
        (("print(42)").data)).getD 1 ([], [])).1 = false := by decide

/-- Witness for the amended C1 theorem: with every generated response equal
to the single stripped colon-line `"lang: python"`, the analyst prompt
contains the truncated curator response verbatim. -/
theorem chain_prompts_contain_prior_outputs_witness :
    strHasSub ((query_ai_steps (fun _ => ("lang: python").data)
        (("print(42)").data)).getD 0 ([], [])).2
      ((query_ai_steps (fun _ => ("lang: python").data)
        (("print(42)").data)).getD 1 ([], [])).1 = true :=
  (chain_prompts_contain_prior_outputs (fun _ => ("lang: python").data)
    (("print(42)").data) (by decide) (by decide)).1

end CB
